import Mathlib

/-!
Shallow embedding of the vheap persistent block allocator (package vheap:
heap.go and the region/block-id source file), together with theorems about
its allocation, free, lookup and growth behaviour.

Modelling conventions:
* Go `int64` values are `Int`; where the Go code can overflow (the
  `rid << 16` shift in `NewBlockId`) we wrap explicitly with `wrap64`.
* A region's mapped byte range `r.d` is modelled by its length (`size`),
  the two header/tail bookkeeping fields (`freePtr`, the free pointer at
  bytes [8,16), and `nextId`, the raw next-free-block-id counter in the
  last 8 bytes), and the block-list entries as a total function from the
  masked block index to the `(offset, size)` pair stored in the 16-byte
  slot.  A freshly appended region is zero-filled (`Truncate` extends the
  file with zero bytes), so every slot initially reads the sentinel
  `(0, 0)`; block data bytes themselves are not modelled (no claim reads
  them).
* Go panics are modelled with `Option` where a claim is about the panic
  itself (`NewBlockId`'s guard, `Heap.GetBlock`'s unchecked slice index).
  Inside the region operations the source re-derives the next block id via
  `NewBlockId(r.id, rawCounter)`, which would panic if the raw counter
  exceeded 0xfffff; the model uses the non-panicking packing `packBlockId`
  there, and the theorems restrict to counters in the 16-bit range that
  the block-id format supports.  Slot accesses through
  `getBlockListEntryBytes` assume the slot lies inside the mapped range
  (outside it the Go slice expression would panic).
-/

namespace VHeap

/-- Two's-complement wrap of an integer into the `int64` range, used where
the Go code can overflow a 64-bit shift. -/
def wrap64 (x : Int) : Int := (x + 2 ^ 63) % 2 ^ 64 - 2 ^ 63

/-- The packing expression `(rid << 16) | (bid & 0xffff)` from `NewBlockId`:
the left operand has zero low 16 bits, so the bitwise or is addition.
Go `type BlockId int64` is modelled as a plain `Int` in the int64 range. -/
def packBlockId (rid bid : Int) : Int :=
  wrap64 (rid * 65536) + bid % 65536

/-- Go `NewBlockId(rid, bid)`: panics (modelled as `none`) when
`bid > 0xfffff`, even though its message reads
"Block ID cannot be > 65535"; otherwise packs the pair. -/
def NewBlockId (rid bid : Int) : Option Int :=
  if bid > 0xfffff then none else some (packBlockId rid bid)

/-- Go `(id BlockId).RegionId()`: arithmetic shift right by 16, i.e. floor
division of the signed value. -/
def BlockId.regionId (id : Int) : Int := id / 65536

/-- Go `(id BlockId).BlockId()`: the low 16 bits `id & 0xffff`. -/
def BlockId.blockIdx (id : Int) : Int := id % 65536

/-- Go `Block`: the `region` back-pointer and the `Bytes` view
`r.d[offset : offset+size]` are not modelled (byte contents are opaque
here); the identifying fields `Id`, `Offset`, `Size` are. -/
structure Block where
  id : Int
  offset : Int
  size : Int
deriving DecidableEq

/-- Go `region`: `id` is the region index from the header, `size` the
length of the mapped range `r.d` (= the stored region size), `freePtr`
the 64-bit free pointer at bytes [8,16), `nextId` the raw
next-free-block-id counter in the last 8 bytes, and `entries` the
block-list slots (16 bytes each, growing down from the tail), indexed by
the masked block index. -/
structure Region where
  id : Int
  size : Int
  freePtr : Int
  nextId : Int
  entries : Int → Int × Int

/-- Go `r.getNextFreeBlockId()` = `NewBlockId(r.id, rawCounter)` on its
non-panicking path (the guard fires only when the raw counter exceeds
0xfffff; theorems stay below that). -/
def Region.nextFreeBlockId (r : Region) : Int :=
  packBlockId r.id r.nextId

/-- Go `r.Available()` =
`r.Size() - r.getFreePointer() - blockListHeaderSize -
 r.getNextFreeBlockId().BlockId()*blockListEntrySize`
with `blockListHeaderSize = 8` and `blockListEntrySize = 16`. -/
def Region.Available (r : Region) : Int :=
  r.size - r.freePtr - 8 - BlockId.blockIdx r.nextFreeBlockId * 16

/-- Go `r.setBlockListEntry(id, offset, size)`: writes the two 8-byte
fields of the slot selected by `id.BlockId()`. -/
def Region.setBlockListEntry (r : Region) (id : Int) (offset size : Int) :
    Region :=
  { r with entries := Function.update r.entries (BlockId.blockIdx id) (offset, size) }

/-- Go `r.rawGetBlock(id)`: reads the slot's `(offset, size)`; a zero
offset or zero size is the sentinel and yields no block. -/
def Region.rawGetBlock (r : Region) (id : Int) : Option Block :=
  let e := r.entries (BlockId.blockIdx id)
  if e.1 = 0 ∨ e.2 = 0 then none else some ⟨id, e.1, e.2⟩

/-- Go `r.incrementFreeBlockId()` (its state effect): stores
`getNextFreeBlockId().BlockId() + 1` into the raw counter. -/
def Region.incrementFreeBlockId (r : Region) : Region :=
  { r with nextId := BlockId.blockIdx r.nextFreeBlockId + 1 }

/-- Result of `region.Allocate`, Go's `(*Block, error)` pair: `ok b`
is `(b, nil)` (with `b = none` for a `nil` block), the other two are the
`OutOfMemory` and `BlockTooLarge` error values. -/
inductive AllocResult where
  | ok (b : Option Block)
  | outOfMemory
  | blockTooLarge
deriving DecidableEq

/-- Go `r.Allocate(size)`, in source order: read the free pointer as
`offset`; `size > Available()` fails with `OutOfMemory`;
`size > Size()` fails with `BlockTooLarge`; otherwise write the
block-list entry at the next free id, build the block view, advance the
free pointer, increment the id counter. -/
def Region.Allocate (r : Region) (size : Int) : AllocResult × Region :=
  let offset := r.freePtr
  if size > r.Available then (.outOfMemory, r)
  else if size > r.size then (.blockTooLarge, r)
  else
    let id := r.nextFreeBlockId
    let r1 := r.setBlockListEntry id offset size
    let b := r1.rawGetBlock id
    let r2 := { r1 with freePtr := offset + size }
    let r3 := r2.incrementFreeBlockId
    (.ok b, r3)

/-- Go `r.Free(b)` (only `b.Id` is consulted): a sentinel entry returns
`false` unchanged; otherwise the entry is zeroed, and when the id is the
last allocated slot (`b.Id == getNextFreeBlockId()-1`) the free pointer
rolls back to the freed offset and the counter is wound back to
`b.Id.BlockId()`. -/
def Region.Free (r : Region) (bid : Int) : Bool × Region :=
  let e := r.entries (BlockId.blockIdx bid)
  if e.1 = 0 ∧ e.2 = 0 then (false, r)
  else
    let r1 := r.setBlockListEntry bid 0 0
    if bid = r1.nextFreeBlockId - 1 then
      (true, { r1 with freePtr := e.1, nextId := BlockId.blockIdx bid })
    else (true, r1)

/-- Go `r.GetBlock(id)`: absent when the id lies outside
`[NewBlockId(r.id, 0), getNextFreeBlockId())`, otherwise `rawGetBlock`. -/
def Region.GetBlock (r : Region) (id : Int) : Option Block :=
  let mx := r.nextFreeBlockId
  if id < packBlockId r.id 0 ∨ id ≥ mx then none else r.rawGetBlock id

/-- Go `r.Blocks()`: iterate the ids from `NewBlockId(r.id, 0)` up to
(but excluding) `getNextFreeBlockId()`, keeping the ids `GetBlock`
resolves. -/
def Region.Blocks (r : Region) : List Block :=
  (List.range (r.nextFreeBlockId - packBlockId r.id 0).toNat).filterMap
    (fun j => r.GetBlock (packBlockId r.id 0 + j))

/-- State of a region just produced by Go `appendRegion(rid, f, size)`:
header written with free pointer 32 (= the header size), stored size and
region index, counter initialised to 0 by `initBlockList`, and all slots
zero because `Truncate` extends the file with zero bytes. -/
def freshRegion (rid size : Int) : Region :=
  ⟨rid, size, 32, 0, fun _ => (0, 0)⟩

/-- Go `Heap`: the file handle is not modelled, only the ordered region
sequence. -/
structure Heap where
  regions : List Region

/-- Go `h.GetBlock(id)` = `h.regions[id.RegionId()].GetBlock(id)`.
The slice index is unchecked: a region index outside
`[0, len(h.regions))` is a Go index-out-of-range panic, modelled as the
outer `none`; `some` carries the region's (possibly absent) lookup. -/
def Heap.GetBlock (h : Heap) (id : Int) : Option (Option Block) :=
  if 0 ≤ BlockId.regionId id ∧ BlockId.regionId id < (h.regions.length : Int) then
    some ((h.regions.getD (BlockId.regionId id).toNat (freshRegion 0 0)).GetBlock id)
  else none

/-- Outcome of the region loop inside Go `h.Allocate`: a region accepted
the request (`ok`, with the updated region sequence), some region
returned `BlockTooLarge` which short-circuits (`tooLarge`), or every
region returned `OutOfMemory` (`allOOM`). -/
inductive TryOut where
  | ok (b : Option Block) (rs : List Region)
  | tooLarge
  | allOOM

/-- The `for _, r = range h.regions` loop of Go `h.Allocate`: first
region whose `Allocate` does not return `OutOfMemory` decides; an error
other than `OutOfMemory` (i.e. `BlockTooLarge`) propagates immediately.
Failed regions are left unchanged (the source mutates nothing on its
error paths). -/
def tryRegions : List Region → Int → TryOut
  | [], _ => .allOOM
  | r :: rest, size =>
    match r.Allocate size with
    | (.ok b, r1) => .ok b (r1 :: rest)
    | (.blockTooLarge, _) => .tooLarge
    | (.outOfMemory, _) =>
      match tryRegions rest size with
      | .ok b rs => .ok b (r :: rs)
      | .tooLarge => .tooLarge
      | .allOOM => .allOOM

/-- The `for regionSize < size { regionSize *= 2 }` loop of Go
`h.Allocate`, fuelled: `none` means the loop did not finish within the
given fuel (for a positive starting size the fuel used below always
suffices; for a non-positive one the Go loop really diverges). -/
def doubleUntil : Nat → Int → Int → Option Int
  | 0, _, _ => none
  | fuel + 1, s, target =>
    if s < target then doubleUntil fuel (s * 2) target else some s

/-- Outcome of Go `h.Allocate`: a `(*Block, error)` return (`ok` / `err`),
a nil-pointer panic when the heap has no regions at all (`panicked`), or
non-termination of the grow-and-retry recursion within the fuel
(`diverge`). -/
inductive HeapAllocOut where
  | ok (b : Option Block) (h : Heap)
  | err (e : AllocResult)
  | panicked
  | diverge

/-- Go `h.Allocate(size)`, fuelled on the grow-and-retry recursion
`return h.Allocate(size)`: try every region; if all report
`OutOfMemory`, double the LAST region's size until it is at least
`size`, append a fresh region with the next sequential index, and retry
the whole allocation. -/
def Heap.AllocateFuel : Nat → Heap → Int → HeapAllocOut
  | 0, _, _ => .diverge
  | fuel + 1, h, size =>
    match tryRegions h.regions size with
    | .ok b rs => .ok b ⟨rs⟩
    | .tooLarge => .err .blockTooLarge
    | .allOOM =>
      match h.regions.getLast? with
      | none => .panicked
      | some last =>
        match doubleUntil (size.toNat + 1) last.size size with
        | none => .diverge
        | some ns =>
          Heap.AllocateFuel fuel ⟨h.regions ++ [freshRegion (last.id + 1) ns]⟩ size

/-- Heap produced by Go `OpenForUpdate` on a fresh (empty) file with the
given region size in MiB: a single fresh region of index 0. -/
def openForUpdateFresh (mb : Int) : Heap :=
  ⟨[freshRegion 0 (mb * 1024 * 1024)]⟩

/-! Intermediate states of a successful `Region.Allocate`, at the
granularity of the individual 64-bit writes the Go code performs:
`setBlockListEntry` stores the offset field, then the size field; then
`setFreePointer` advances the free pointer; then `incrementFreeBlockId`
bumps the counter.  Used to state the write-ordering claim. -/

/-- State after the first write: the slot's offset field. -/
def allocState1 (r : Region) (size : Int) : Region :=
  let slot := BlockId.blockIdx r.nextFreeBlockId
  { r with entries := Function.update r.entries slot (r.freePtr, (r.entries slot).2) }

/-- State after the second write: the slot's size field. -/
def allocState2 (r : Region) (size : Int) : Region :=
  let slot := BlockId.blockIdx r.nextFreeBlockId
  { allocState1 r size with
    entries := Function.update (allocState1 r size).entries slot (r.freePtr, size) }

/-- State after the third write: `setFreePointer(offset + size)`. -/
def allocState3 (r : Region) (size : Int) : Region :=
  { allocState2 r size with freePtr := r.freePtr + size }

/-- State after the fourth write: `incrementFreeBlockId()`. -/
def allocState4 (r : Region) (size : Int) : Region :=
  (allocState3 r size).incrementFreeBlockId

/-- The full write trace of a successful `Allocate`, starting state
included. -/
def Region.allocStates (r : Region) (size : Int) : List Region :=
  [r, allocState1 r size, allocState2 r size, allocState3 r size,
    allocState4 r size]

/-- Run a sequence of `Region.Allocate` calls (no intervening frees),
collecting the returned blocks; `none` as soon as one call fails or
returns a nil block. -/
def allocAll : Region → List Int → Option (List Block × Region)
  | r, [] => some ([], r)
  | r, size :: rest =>
    match r.Allocate size with
    | (.ok (some b), r1) =>
      match allocAll r1 rest with
      | some (bs, rf) => some (b :: bs, rf)
      | none => none
    | _ => none

/-- C4 statement.  For a successful `Allocate` on `r`: the operation's
final state is `allocState4`; the block-list entry is complete before the
free pointer moves (states 1–2 keep the original free pointer and
counter), the free pointer is advanced by `size` before the counter moves
(state 3 keeps the original counter), and the counter is incremented
last.  Visibility: in every state of the trace, every slot with index
strictly below that state's counter already holds exactly its final
value, and every slot below the ORIGINAL counter still holds its original
value — a reader trusting only indices below the counter never sees a
torn entry. -/
def WriteOrderSpec (r : Region) (size : Int) : Prop :=
  (r.Allocate size).2 = allocState4 r size ∧
  (r.Allocate size).1 =
    AllocResult.ok ((allocState2 r size).rawGetBlock r.nextFreeBlockId) ∧
  (allocState1 r size).nextId = r.nextId ∧
  (allocState2 r size).nextId = r.nextId ∧
  (allocState3 r size).nextId = r.nextId ∧
  (allocState4 r size).nextId = r.nextId + 1 ∧
  (allocState1 r size).freePtr = r.freePtr ∧
  (allocState2 r size).freePtr = r.freePtr ∧
  (allocState2 r size).entries r.nextId = (r.freePtr, size) ∧
  (allocState3 r size).freePtr = r.freePtr + size ∧
  (allocState4 r size).freePtr = r.freePtr + size ∧
  (allocState4 r size).entries = (allocState3 r size).entries ∧
  (∀ s ∈ r.allocStates size, ∀ i, 0 ≤ i → i < s.nextId →
    s.entries i = (allocState4 r size).entries i) ∧
  (∀ s ∈ r.allocStates size, ∀ i, 0 ≤ i → i < r.nextId →
    s.entries i = r.entries i)

/-- C5 amended statement.  Freeing the live block in slot
`nextId − 1` (the most recently allocated slot), when the free pointer
sits at its end, succeeds, rolls the free pointer back to the block's
offset, decrements the counter, and increases `Available()` by the
block's size PLUS the reclaimed 16-byte list entry; freeing a live block
in any other slot succeeds but leaves `Available()` unchanged. -/
def LifoFreeSpec (r : Region) (j o s : Int) : Prop :=
  (j = r.nextId - 1 ∧ r.freePtr = o + s →
    (r.Free (packBlockId r.id j)).1 = true ∧
    (r.Free (packBlockId r.id j)).2.freePtr = o ∧
    (r.Free (packBlockId r.id j)).2.nextId = r.nextId - 1 ∧
    (r.Free (packBlockId r.id j)).2.Available = r.Available + s + 16) ∧
  (j ≠ r.nextId - 1 →
    (r.Free (packBlockId r.id j)).1 = true ∧
    (r.Free (packBlockId r.id j)).2.Available = r.Available)

/-- C7 amended statement.  For a block id whose region index is within
the heap's region sequence, `Heap.GetBlock` delegates to that region (no
panic; a missing block surfaces as `some none`, i.e. absent); for a
region index outside the sequence it panics (the outer `none`), rather
than returning absent. -/
def RoutedGetBlockSpec (h : Heap) (id : Int) : Prop :=
  (0 ≤ BlockId.regionId id ∧ BlockId.regionId id < (h.regions.length : Int) →
    ∃ r, r ∈ h.regions ∧ h.GetBlock id = some (r.GetBlock id)) ∧
  (¬ (0 ≤ BlockId.regionId id ∧ BlockId.regionId id < (h.regions.length : Int)) →
    h.GetBlock id = none)

/-- C8 statement.  Freeing a live slot returns true; freeing it again
returns false and leaves the state untouched; and on any region state a
`Free` of an id whose slot is the sentinel (never allocated, or already
freed) returns false with the state untouched. -/
def FreeTwiceSpec (r : Region) (j : Int) : Prop :=
  (r.Free (packBlockId r.id j)).1 = true ∧
  ((r.Free (packBlockId r.id j)).2.Free (packBlockId r.id j)) =
    (false, (r.Free (packBlockId r.id j)).2) ∧
  (∀ rr : Region, rr.entries j = (0, 0) →
    rr.Free (packBlockId rr.id j) = (false, rr))

/-- C9 statement.  A successful sequence of allocations on a fresh region
of index 0 yields exactly the block ids 0, 1, 2, … in order (densely
packed, starting at 0); and on a fresh single-region heap, the first
allocation, when it fits the region, returns a block whose id encodes
(region 0, block 0), i.e. the id 0. -/
def DenseIdsSpec (S : Int) (sizes : List Int) : Prop :=
  ((allocAll (freshRegion 0 S) sizes).map fun p => p.1.map Block.id) =
    some ((List.range sizes.length).map fun k : Nat => (k : Int)) ∧
  (∀ fuel s b h2,
    Heap.AllocateFuel (fuel + 1) ⟨[freshRegion 0 S]⟩ s = HeapAllocOut.ok (some b) h2 →
    s ≤ (freshRegion 0 S).Available → b.id = 0)

/-- C10 statement.  `Allocate(0)` returns neither a block nor an error
(`ok none` — Go `(nil, nil)`), yet writes a `(freePointer, 0)` entry into
the next slot and increments the counter while leaving the free pointer
in place; the consumed slot is invisible to `GetBlock` and `Blocks`
(its zero size reads as the sentinel); and through the heap's region
loop, `Allocate(0)` likewise yields a nil block with no error. -/
def ZeroAllocSpec (r : Region) (rest : List Region) : Prop :=
  (r.Allocate 0).1 = AllocResult.ok none ∧
  (r.Allocate 0).2.entries r.nextId = (r.freePtr, 0) ∧
  (r.Allocate 0).2.nextId = r.nextId + 1 ∧
  (r.Allocate 0).2.freePtr = r.freePtr ∧
  (r.Allocate 0).2.GetBlock (packBlockId r.id r.nextId) = none ∧
  (∀ b ∈ (r.Allocate 0).2.Blocks, b.id ≠ packBlockId r.id r.nextId) ∧
  tryRegions (r :: rest) 0 = TryOut.ok none ((r.Allocate 0).2 :: rest) ∧
  (∀ fuel, Heap.AllocateFuel (fuel + 1) ⟨r :: rest⟩ 0 =
    HeapAllocOut.ok none ⟨(r.Allocate 0).2 :: rest⟩)

/-! Basic arithmetic facts about the block-id packing. -/

lemma packBlockId_blockIdx (rid bid : Int) :
    BlockId.blockIdx (packBlockId rid bid) = bid % 65536 := by
  unfold packBlockId BlockId.blockIdx wrap64
  omega

lemma nextFreeBlockId_blockIdx (r : Region) :
    BlockId.blockIdx r.nextFreeBlockId = r.nextId % 65536 :=
  packBlockId_blockIdx r.id r.nextId

lemma Available_eq (r : Region) :
    r.Available = r.size - r.freePtr - 8 - r.nextId % 65536 * 16 := by
  unfold Region.Available
  rw [nextFreeBlockId_blockIdx]

lemma packBlockId_small (rid bid : Int) (h0 : 0 ≤ bid) (h1 : bid < 65536) :
    packBlockId rid bid = packBlockId rid 0 + bid := by
  unfold packBlockId wrap64
  omega

/-- In any region state with a non-negative free pointer, `Allocate`
cannot return `BlockTooLarge`: the `size > Available()` check runs first
and `Available() < Size()` always, so the `size > Size()` branch is dead
code. -/
theorem Region.allocate_not_blockTooLarge (r : Region) (s : Int)
    (h : 0 ≤ r.freePtr) : (r.Allocate s).1 ≠ .blockTooLarge := by
  unfold Region.Allocate
  by_cases h1 : s > r.Available
  · simp [h1]
  · have hA := Available_eq r
    have hm : 0 ≤ r.nextId % 65536 := Int.emod_nonneg _ (by norm_num)
    have h2 : ¬ s > r.size := by omega
    simp [h1, h2]

/-- C2.  A request exceeding a region's total usable capacity even when
the region is completely empty is reported as `OutOfMemory`, not
`BlockTooLarge`: on an empty 1 MiB region, a 2 MiB request trips the
`size > Available()` check first, so the `BlockTooLarge` branch is never
reached and the two conditions are not distinguished to the caller. -/
theorem c2_outOfMemory_shadows_blockTooLarge :
    2097152 > (freshRegion 0 1048576).Available ∧
    ((freshRegion 0 1048576).Allocate 2097152).1 = AllocResult.outOfMemory := by
  decide

/-- C3.  A successful `Allocate` of exactly `Available()` bytes violates
the containment invariant: on an empty 1 MiB region, `Available()` is
1048536, the allocation succeeds with range [32, 32+1048536), but the end
of that range exceeds the start of the block list in use after the
allocation (`size − 8 − 16·nextId` = 1048552), i.e. the block overlaps
its own 16-byte block-list entry because `Available()` never reserves the
entry consumed by the new block. -/
theorem c3_block_overlaps_own_entry :
    (freshRegion 0 1048576).Available = 1048536 ∧
    ((freshRegion 0 1048576).Allocate 1048536).1 =
      AllocResult.ok (some ⟨0, 32, 1048536⟩) ∧
    ((freshRegion 0 1048576).Allocate 1048536).2.nextId = 1 ∧
    32 + 1048536 >
      1048576 - 8 - 16 * ((freshRegion 0 1048576).Allocate 1048536).2.nextId := by
  decide

/-- C6.  `NewBlockId` does not fail for block index 65536 (which exceeds
the 16-bit capacity): its guard is `bid > 0xfffff`, so 65536 passes and
is masked to 0 — the produced id decodes to (region 0, block 0), not the
requested pair.  The guard actually fires only above 1048575. -/
theorem c6_newBlockId_guard_mismatch :
    NewBlockId 0 65536 = some 0 ∧
    BlockId.regionId 0 = 0 ∧ BlockId.blockIdx 0 = 0 ∧
    NewBlockId 0 1048575 = some 65535 ∧
    NewBlockId 0 1048576 = none := by
  decide

/-- C5 counterexample.  In a 1 MiB region whose only (hence most recently
allocated, live) block has size 100, freeing that block increases
`Available()` by 116 — the 100 data bytes plus the reclaimed 16-byte
block-list entry — and not by exactly the block's size 100 as claimed. -/
theorem c5_free_counterexample :
    ((((freshRegion 0 1048576).Allocate 100).2).Free 0).1 = true ∧
    ((((freshRegion 0 1048576).Allocate 100).2).Free 0).2.Available =
      (((freshRegion 0 1048576).Allocate 100).2).Available + 116 ∧
    ¬ (((((freshRegion 0 1048576).Allocate 100).2).Free 0).2.Available =
      (((freshRegion 0 1048576).Allocate 100).2).Available + 100) := by
  decide

/-- Shape of a successful `Region.Allocate`: when neither failure guard
fires, the result is the block read back from the freshly written entry,
and the state has the entry written, the free pointer advanced and the
counter bumped — in that composition order. -/
lemma allocate_success (r : Region) (size : Int)
    (hnogt : ¬ size > r.Available) (hnosz : ¬ size > r.size) :
    r.Allocate size =
      (AllocResult.ok
        ((r.setBlockListEntry r.nextFreeBlockId r.freePtr size).rawGetBlock
          r.nextFreeBlockId),
        ({ r.setBlockListEntry r.nextFreeBlockId r.freePtr size with
            freePtr := r.freePtr + size }).incrementFreeBlockId) := by
  simp only [Region.Allocate]
  rw [if_neg hnogt, if_neg hnosz]

/-- Helper: the `size > Size()` guard of `Allocate` is subsumed by the
`size > Available()` guard whenever the free pointer is non-negative. -/
lemma size_le_of_le_available (r : Region) (size : Int)
    (hf : 0 ≤ r.freePtr) (hs : size ≤ r.Available) : ¬ size > r.size := by
  have hA := Available_eq r
  have hm : 0 ≤ r.nextId % 65536 := Int.emod_nonneg _ (by norm_num)
  omega

/-- C4.  In every successful `region.Allocate` the shared-state writes
happen in source order — block-list entry first, free pointer second,
id counter last — and at every intermediate point a reader trusting only
entries with index strictly below the counter sees only fully written
slots. -/
theorem c4_write_order (r : Region) (size : Int)
    (h0 : 0 ≤ r.nextId) (h1 : r.nextId ≤ 65535)
    (hf : 0 ≤ r.freePtr) (hs : size ≤ r.Available) :
    WriteOrderSpec r size := by
  have hslot : BlockId.blockIdx r.nextFreeBlockId = r.nextId := by
    rw [nextFreeBlockId_blockIdx]
    omega
  have hnogt : ¬ size > r.Available := not_lt.mpr hs
  have hnosz : ¬ size > r.size := size_le_of_le_available r size hf hs
  have hidem : (allocState2 r size).entries =
      Function.update r.entries r.nextId (r.freePtr, size) := by
    simp [allocState2, allocState1, hslot, Function.update_idem]
  have hstate2 : r.setBlockListEntry r.nextFreeBlockId r.freePtr size =
      allocState2 r size := by
    simp [Region.setBlockListEntry, allocState2, allocState1, hslot,
      Region.mk.injEq, Function.update_idem]
  have hs4n : (allocState4 r size).nextId = r.nextId + 1 := by
    show BlockId.blockIdx (allocState3 r size).nextFreeBlockId + 1 = r.nextId + 1
    rw [nextFreeBlockId_blockIdx]
    show r.nextId % 65536 + 1 = r.nextId + 1
    omega
  have halloc := allocate_success r size hnogt hnosz
  have hs4e : (allocState4 r size).entries =
      Function.update r.entries r.nextId (r.freePtr, size) := hidem
  refine ⟨?_, ?_, rfl, rfl, rfl, hs4n, rfl, rfl, ?_, rfl, rfl, rfl, ?_, ?_⟩
  · rw [halloc]
    show ({ r.setBlockListEntry r.nextFreeBlockId r.freePtr size with
        freePtr := r.freePtr + size }).incrementFreeBlockId = allocState4 r size
    rw [hstate2]
    rfl
  · rw [halloc]
    rw [hstate2]
  · rw [hidem]
    exact Function.update_same _ _ _
  · intro s hsmem i hi0 hilt
    have hcases : s = r ∨ s = allocState1 r size ∨ s = allocState2 r size ∨
        s = allocState3 r size ∨ s = allocState4 r size := by
      simpa [Region.allocStates] using hsmem
    rcases hcases with hc | hc | hc | hc | hc <;> rw [hc] at hilt ⊢
    · rw [hs4e, Function.update_noteq (show i ≠ r.nextId by omega)]
    · have hin : i < r.nextId := hilt
      show Function.update r.entries (BlockId.blockIdx r.nextFreeBlockId)
        (r.freePtr, (r.entries (BlockId.blockIdx r.nextFreeBlockId)).2) i =
        (allocState4 r size).entries i
      rw [hs4e, hslot,
        Function.update_noteq (show i ≠ r.nextId by omega),
        Function.update_noteq (show i ≠ r.nextId by omega)]
    · rfl
    · rfl
  · intro s hsmem i hi0 hilt
    have hcases : s = r ∨ s = allocState1 r size ∨ s = allocState2 r size ∨
        s = allocState3 r size ∨ s = allocState4 r size := by
      simpa [Region.allocStates] using hsmem
    have hne : i ≠ r.nextId := by omega
    rcases hcases with hc | hc | hc | hc | hc <;> rw [hc]
    · show Function.update r.entries (BlockId.blockIdx r.nextFreeBlockId)
        (r.freePtr, (r.entries (BlockId.blockIdx r.nextFreeBlockId)).2) i =
        r.entries i
      rw [hslot, Function.update_noteq hne]
    · show (allocState2 r size).entries i = r.entries i
      rw [hidem, Function.update_noteq hne]
    · show (allocState2 r size).entries i = r.entries i
      rw [hidem, Function.update_noteq hne]
    · show (allocState2 r size).entries i = r.entries i
      rw [hidem, Function.update_noteq hne]

/-- Witness for C4 at a concrete input: a fresh 1 MiB region and a
100-byte request satisfy every hypothesis, and the write-order property
holds there. -/
theorem c4_write_order_witness :
    (0 ≤ (freshRegion 0 1048576).nextId ∧ (freshRegion 0 1048576).nextId ≤ 65535 ∧
      0 ≤ (freshRegion 0 1048576).freePtr ∧
      (100 : Int) ≤ (freshRegion 0 1048576).Available) ∧
    WriteOrderSpec (freshRegion 0 1048576) 100 :=
  ⟨⟨by decide, by decide, by decide, by decide⟩,
    c4_write_order (freshRegion 0 1048576) 100 (by decide) (by decide)
      (by decide) (by decide)⟩

/-- The doubling loop of `h.Allocate` finishes immediately when the
starting region size already reaches the target. -/
lemma doubleUntil_done (f : Nat) (s t : Int) (h : ¬ s < t) :
    doubleUntil (f + 1) s t = some s := by
  unfold doubleUntil
  simp [h]

/-- A fresh 1 MiB region reports `OutOfMemory` for a 1 MiB request:
its available space is only `1048576 − 40`. -/
lemma mib_region_allocate_oom (r : Region) (hs : r.size = 1048576)
    (hf : r.freePtr = 32) (hn : r.nextId = 0) :
    (r.Allocate 1048576).1 = AllocResult.outOfMemory := by
  have hA : r.Available = 1048536 := by
    rw [Available_eq, hs, hf, hn]
    norm_num
  unfold Region.Allocate
  rw [hA]
  norm_num

/-- When every region reports `OutOfMemory`, the region loop of
`h.Allocate` reports `allOOM`. -/
lemma tryRegions_allOOM (size : Int) (rs : List Region)
    (h : ∀ r ∈ rs, (r.Allocate size).1 = AllocResult.outOfMemory) :
    tryRegions rs size = .allOOM := by
  induction rs with
  | nil => rfl
  | cons r rest ih =>
    have hr : (r.Allocate size).1 = AllocResult.outOfMemory :=
      h r (List.mem_cons_self r rest)
    have hrest : tryRegions rest size = .allOOM :=
      ih (fun x hx => h x (List.mem_cons_of_mem r hx))
    rcases hAlloc : r.Allocate size with ⟨res, r1⟩
    rw [hAlloc] at hr
    simp only at hr
    subst hr
    unfold tryRegions
    rw [hAlloc, hrest]

/-- Auxiliary induction for C1: a heap whose regions are all fresh 1 MiB
regions never finishes `Allocate(1048576)` — every round appends another
fresh 1 MiB region (the doubling loop does not grow 1048576, which is
already ≥ the request) and retries in a state of the same shape. -/
lemma heapAllocateFuel_diverge (fuel : Nat) :
    ∀ h : Heap, h.regions ≠ [] →
      (∀ r ∈ h.regions, r.size = 1048576 ∧ r.freePtr = 32 ∧ r.nextId = 0) →
      Heap.AllocateFuel fuel h 1048576 = HeapAllocOut.diverge := by
  induction fuel with
  | zero =>
    intro h _ _
    rfl
  | succ fuel ih =>
    intro h hne hinv
    have hoom : ∀ r ∈ h.regions, (r.Allocate 1048576).1 = AllocResult.outOfMemory := by
      intro r hr
      obtain ⟨a, b, c⟩ := hinv r hr
      exact mib_region_allocate_oom r a b c
    have htry := tryRegions_allOOM 1048576 h.regions hoom
    rcases hlast : h.regions.getLast? with _ | last
    · exact absurd (List.getLast?_eq_none_iff.mp hlast) hne
    · have hmem : last ∈ h.regions := by
        obtain ⟨hnil, hx⟩ := List.mem_getLast?_eq_getLast (l := h.regions) (by rw [hlast]; rfl)
        rw [hx]
        exact List.getLast_mem hnil
      obtain ⟨hsz, _, _⟩ := hinv last hmem
      have hdu : doubleUntil ((1048576 : Int).toNat + 1) last.size 1048576 =
          some 1048576 := by
        rw [hsz]
        exact doubleUntil_done _ _ _ (by norm_num)
      unfold Heap.AllocateFuel
      rw [htry, hlast]
      simp only [hdu]
      refine ih _ (by simp) ?_
      intro r hr
      rcases List.mem_append.mp hr with h1 | h2
      · exact hinv r h1
      · have : r = freshRegion (last.id + 1) 1048576 := by simpa using h2
        subst this
        exact ⟨rfl, rfl, rfl⟩

/-- C1.  On a fresh heap opened with the configured base region size of
1 MiB, `Allocate(1048576)` never returns, for every recursion fuel: the
existing region reports `OutOfMemory` (available is 1048536), the growth
policy computes a new region size of 1048576 (no doubling needed, it is
already ≥ the request), appends that region — and the retried allocation
fails in it again for the same reason, appending identical regions
forever.  The retry is NOT guaranteed to succeed after one append. -/
theorem c1_allocate_diverges (fuel : Nat) :
    Heap.AllocateFuel fuel (openForUpdateFresh 1) 1048576 = HeapAllocOut.diverge := by
  refine heapAllocateFuel_diverge fuel (openForUpdateFresh 1) (by simp [openForUpdateFresh]) ?_
  intro r hr
  have : r = freshRegion 0 1048576 := by
    simpa [openForUpdateFresh] using hr
  subst this
  exact ⟨rfl, rfl, rfl⟩

/-- C5 (amended).  Freeing the live block occupying slot `nextId − 1`
with the free pointer at its end returns true, rolls the free pointer
back to the block's offset, decrements the counter, and increases
`Available()` by the block's size plus the reclaimed 16-byte list entry;
freeing a live block in any other slot returns true but leaves
`Available()` unchanged. -/
theorem c5_lifo_reclaim (r : Region) (j o s : Int)
    (hc0 : 1 ≤ r.nextId) (hc1 : r.nextId ≤ 65535)
    (hj0 : 0 ≤ j) (hj1 : j ≤ 65535)
    (he : r.entries j = (o, s)) (hlive : ¬ (o = 0 ∧ s = 0)) :
    LifoFreeSpec r j o s := by
  have hbj : BlockId.blockIdx (packBlockId r.id j) = j := by
    rw [packBlockId_blockIdx]
    omega
  have hnf : (r.setBlockListEntry (packBlockId r.id j) 0 0).nextFreeBlockId =
      packBlockId r.id r.nextId := rfl
  constructor
  · rintro ⟨hj, hfp⟩
    have hcond : packBlockId r.id j = packBlockId r.id r.nextId - 1 := by
      unfold packBlockId wrap64
      omega
    have hres : r.Free (packBlockId r.id j) =
        (true, { r.setBlockListEntry (packBlockId r.id j) 0 0 with
                 freePtr := o, nextId := j }) := by
      simp only [Region.Free, hbj, he]
      rw [if_neg hlive, hnf, if_pos hcond]
    rw [hres]
    refine ⟨rfl, rfl, ?_, ?_⟩
    · show j = r.nextId - 1
      exact hj
    · rw [Available_eq, Available_eq]
      show r.size - o - 8 - j % 65536 * 16 =
        r.size - r.freePtr - 8 - r.nextId % 65536 * 16 + s + 16
      omega
  · intro hj
    have hcond : ¬ packBlockId r.id j = packBlockId r.id r.nextId - 1 := by
      unfold packBlockId wrap64
      omega
    have hres : r.Free (packBlockId r.id j) =
        (true, r.setBlockListEntry (packBlockId r.id j) 0 0) := by
      simp only [Region.Free, hbj, he]
      rw [if_neg hlive, hnf, if_neg hcond]
    rw [hres]
    refine ⟨rfl, ?_⟩
    rw [Available_eq, Available_eq]
    rfl

set_option maxRecDepth 20000 in
/-- Witness for C5's amended claim: a 1 MiB region holding two blocks
(100 then 50 bytes); slot 1 is the most recently allocated slot, its
entry reads (132, 50), and the free pointer sits at 182 = 132 + 50. -/
theorem c5_lifo_reclaim_witness :
    (1 ≤ (((freshRegion 0 1048576).Allocate 100).2.Allocate 50).2.nextId ∧
      (((freshRegion 0 1048576).Allocate 100).2.Allocate 50).2.nextId ≤ 65535 ∧
      (((freshRegion 0 1048576).Allocate 100).2.Allocate 50).2.entries 1 = (132, 50) ∧
      ¬ ((132 : Int) = 0 ∧ (50 : Int) = 0)) ∧
    LifoFreeSpec (((freshRegion 0 1048576).Allocate 100).2.Allocate 50).2 1 132 50 :=
  ⟨⟨by decide, by decide, by decide, by decide⟩,
    c5_lifo_reclaim (((freshRegion 0 1048576).Allocate 100).2.Allocate 50).2 1 132 50
      (by decide) (by decide) (by decide) (by decide) (by decide) (by decide)⟩

/-- C8.  Freeing a live slot twice returns true then false, a `Free` of a
sentinel (never-allocated or already-freed) slot returns false, and in
the false cases the region state is exactly unchanged. -/
theorem c8_free_idempotent (r : Region) (j o s : Int)
    (hj0 : 0 ≤ j) (hj1 : j ≤ 65535)
    (he : r.entries j = (o, s)) (hlive : ¬ (o = 0 ∧ s = 0)) :
    FreeTwiceSpec r j := by
  have hbj : BlockId.blockIdx (packBlockId r.id j) = j := by
    rw [packBlockId_blockIdx]
    omega
  have hsent : ∀ rr : Region, rr.entries j = (0, 0) →
      rr.Free (packBlockId rr.id j) = (false, rr) := by
    intro rr hrr
    have hbj2 : BlockId.blockIdx (packBlockId rr.id j) = j := by
      rw [packBlockId_blockIdx]
      omega
    simp [Region.Free, hbj2, hrr]
  refine ⟨?_, ?_, hsent⟩
  · simp only [Region.Free, hbj, he]
    rw [if_neg hlive]
    split_ifs <;> rfl
  · have hid : ((r.Free (packBlockId r.id j)).2).id = r.id := by
      simp only [Region.Free, hbj, he]
      rw [if_neg hlive]
      split_ifs <;> rfl
    have hzero : ((r.Free (packBlockId r.id j)).2).entries j = (0, 0) := by
      simp only [Region.Free, Region.setBlockListEntry, hbj, he]
      rw [if_neg hlive]
      split_ifs <;> exact Function.update_same _ _ _
    have hsecond := hsent ((r.Free (packBlockId r.id j)).2) hzero
    rw [hid] at hsecond
    exact hsecond

set_option maxRecDepth 20000 in
/-- Witness for C8: a 1 MiB region holding one 100-byte block; slot 0 is
live with entry (32, 100). -/
theorem c8_free_idempotent_witness :
    ((0 : Int) ≤ 0 ∧ (0 : Int) ≤ 65535 ∧
      ((freshRegion 0 1048576).Allocate 100).2.entries 0 = (32, 100) ∧
      ¬ ((32 : Int) = 0 ∧ (100 : Int) = 0)) ∧
    FreeTwiceSpec ((freshRegion 0 1048576).Allocate 100).2 0 :=
  ⟨⟨by decide, by decide, by decide, by decide⟩,
    c8_free_idempotent ((freshRegion 0 1048576).Allocate 100).2 0 32 100
      (by decide) (by decide) (by decide) (by decide)⟩

/-- C7 counterexample.  On a heap with a single region (index 0), looking
up a block id whose region index is 5 does not return absent: the
unchecked slice index `h.regions[id.RegionId()]` panics (the outer `none`
of the model), so `GetBlock` is not total on out-of-range region
indices. -/
theorem c7_getBlock_counterexample :
    BlockId.regionId 327680 = 5 ∧
    Heap.GetBlock ⟨[freshRegion 0 1048576]⟩ 327680 = none := by
  decide

/-- Packing with region index 0 is the identity on in-range block
indices. -/
lemma packBlockId_zero (bid : Int) (h0 : 0 ≤ bid) (h1 : bid < 65536) :
    packBlockId 0 bid = bid := by
  unfold packBlockId wrap64
  omega

/-- A block produced by `Region.GetBlock` carries the id it was looked up
with. -/
lemma getBlock_id (r : Region) (id : Int) (b : Block)
    (h : r.GetBlock id = some b) : b.id = id := by
  simp only [Region.GetBlock] at h
  split_ifs at h with hg
  simp only [Region.rawGetBlock] at h
  split_ifs at h with h2
  simp only [Option.some.injEq] at h
  rw [← h]

/-- C7 (amended).  `Heap.GetBlock` routing: an id whose region index lies
inside the region sequence is delegated to that region and cannot fail
(absence is `some none`); an id whose region index is out of range makes
the unchecked slice index panic instead of returning absent. -/
theorem c7_getBlock_routing (h : Heap) (id : Int) : RoutedGetBlockSpec h id := by
  constructor
  · rintro ⟨h0, h1⟩
    have hlt : (BlockId.regionId id).toNat < h.regions.length := by omega
    refine ⟨h.regions.getD (BlockId.regionId id).toNat (freshRegion 0 0), ?_, ?_⟩
    · rw [List.getD_eq_getElem h.regions (freshRegion 0 0) hlt]
      exact List.getElem_mem hlt
    · unfold Heap.GetBlock
      rw [if_pos ⟨h0, h1⟩]
  · intro hno
    unfold Heap.GetBlock
    rw [if_neg hno]

/-- Witness for C7's amended claim: a two-region heap and an id with
region index 1 (in range). -/
theorem c7_getBlock_routing_witness :
    ((0 : Int) ≤ BlockId.regionId 65536 ∧
      BlockId.regionId 65536 <
        ((Heap.mk [freshRegion 0 1048576, freshRegion 1 1048576]).regions.length : Int)) ∧
    RoutedGetBlockSpec ⟨[freshRegion 0 1048576, freshRegion 1 1048576]⟩ 65536 :=
  ⟨⟨by decide, by decide⟩,
    c7_getBlock_routing ⟨[freshRegion 0 1048576, freshRegion 1 1048576]⟩ 65536⟩

/-- Successful allocations (no frees) assign consecutive raw block
indices starting at the region's current counter value. -/
lemma allocAll_ids (sizes : List Int) :
    ∀ (r : Region) (bs : List Block) (rf : Region),
      0 ≤ r.nextId → r.nextId + (sizes.length : Int) ≤ 65536 → 0 < r.freePtr →
      (∀ s ∈ sizes, 0 < s) →
      allocAll r sizes = some (bs, rf) →
      bs.map Block.id =
        (List.range sizes.length).map
          (fun k : Nat => packBlockId r.id (r.nextId + (k : Int))) := by
  induction sizes with
  | nil =>
    intro r bs rf _ _ _ _ hall
    simp only [allocAll, Option.some.injEq, Prod.mk.injEq] at hall
    simp [← hall.1]
  | cons size rest ih =>
    intro r bs rf h0 hlen hp hpos hall
    have hszpos : 0 < size := hpos size (List.mem_cons_self _ _)
    have hc1 : r.nextId ≤ 65535 := by
      have : (0 : Int) ≤ rest.length := Int.natCast_nonneg _
      simp only [List.length_cons] at hlen
      push_cast at hlen
      omega
    rcases hA : r.Allocate size with ⟨res, r1⟩
    unfold allocAll at hall
    rw [hA] at hall
    cases res with
    | outOfMemory => simp at hall
    | blockTooLarge => simp at hall
    | ok ob =>
      cases ob with
      | none => simp at hall
      | some b =>
        rcases hRest : allocAll r1 rest with _ | p
        · simp [hRest] at hall
        · obtain ⟨bs1, rf1⟩ := p
          simp only [hRest, Option.some.injEq, Prod.mk.injEq] at hall
          obtain ⟨hbs, hrf⟩ := hall
          have hnogt : ¬ size > r.Available := by
            intro hgt
            have hoom : r.Allocate size = (.outOfMemory, r) := by
              unfold Region.Allocate
              rw [if_pos hgt]
            rw [hoom] at hA
            simp at hA
          have hnosz : ¬ size > r.size := by
            intro hsz
            have htl : r.Allocate size = (.blockTooLarge, r) := by
              unfold Region.Allocate
              rw [if_neg hnogt, if_pos hsz]
            rw [htl] at hA
            simp at hA
          have halloc := allocate_success r size hnogt hnosz
          rw [halloc] at hA
          simp only [Prod.mk.injEq, AllocResult.ok.injEq] at hA
          obtain ⟨hb, hr1⟩ := hA
          have hslot : BlockId.blockIdx r.nextFreeBlockId = r.nextId := by
            rw [nextFreeBlockId_blockIdx]
            omega
          simp only [Region.rawGetBlock, Region.setBlockListEntry, hslot,
            Function.update_same] at hb
          rw [if_neg (by omega : ¬ (r.freePtr = 0 ∨ size = 0))] at hb
          simp only [Option.some.injEq] at hb
          have hbid : b.id = packBlockId r.id r.nextId := by
            rw [← hb]
            rfl
          have h1i : r1.id = r.id := by
            rw [← hr1]
            rfl
          have h1n : r1.nextId = r.nextId + 1 := by
            rw [← hr1]
            show BlockId.blockIdx (packBlockId r.id r.nextId) + 1 = r.nextId + 1
            rw [packBlockId_blockIdx]
            omega
          have h1f : r1.freePtr = r.freePtr + size := by
            rw [← hr1]
            rfl
          have ihres := ih r1 bs1 rf1 (by omega)
            (by
              simp only [List.length_cons] at hlen
              push_cast at hlen ⊢
              omega)
            (by omega)
            (fun x hx => hpos x (List.mem_cons_of_mem _ hx)) hRest
          rw [h1i, h1n] at ihres
          rw [← hbs]
          simp only [List.length_cons, List.map_cons, List.range_succ_eq_map,
            List.map_map, List.cons.injEq]
          refine ⟨?_, ?_⟩
          · rw [hbid]
            norm_num
          · rw [ihres]
            refine List.map_congr_left ?_
            intro a _
            show packBlockId r.id (r.nextId + 1 + (a : Int)) =
              packBlockId r.id (r.nextId + ((a + 1 : Nat) : Int))
            push_cast
            ring_nf

/-- C9.  On a fresh region of index 0, every successful allocation
sequence yields block ids 0, 1, 2, … (strictly increasing, densely
packed, starting at 0); and on a fresh single-region heap, the first
allocation, when it fits region 0, returns the id encoding
(regionIndex 0, blockIndex 0), which is the id 0. -/
theorem c9_dense_ids (S : Int) (sizes : List Int)
    (hlen : sizes.length ≤ 65536) (hpos : ∀ s ∈ sizes, 0 < s)
    (hsome : (allocAll (freshRegion 0 S) sizes).isSome) :
    DenseIdsSpec S sizes := by
  constructor
  · obtain ⟨⟨bs, rf⟩, hall⟩ := Option.isSome_iff_exists.mp hsome
    have hmap := allocAll_ids sizes (freshRegion 0 S) bs rf
      (by
        show (0 : Int) ≤ 0
        norm_num)
      (by
        show (0 : Int) + (sizes.length : Int) ≤ 65536
        omega)
      (by
        show (0 : Int) < 32
        norm_num)
      hpos hall
    rw [hall]
    simp only [Option.map_some']
    refine congrArg some ?_
    rw [hmap]
    refine List.map_congr_left ?_
    intro a ha
    have halt : a < 65536 := lt_of_lt_of_le (List.mem_range.mp ha) hlen
    show packBlockId (freshRegion 0 S).id ((freshRegion 0 S).nextId + (a : Int)) =
      (a : Int)
    show packBlockId 0 (0 + (a : Int)) = (a : Int)
    rw [zero_add]
    refine packBlockId_zero _ (Int.natCast_nonneg _) ?_
    exact_mod_cast halt
  · intro fuel s b h2 hEq hfit
    have hnogt : ¬ s > (freshRegion 0 S).Available := not_lt.mpr hfit
    have hnosz : ¬ s > (freshRegion 0 S).size :=
      size_le_of_le_available _ _ (by show (0 : Int) ≤ 32; norm_num) hfit
    have halloc := allocate_success (freshRegion 0 S) s hnogt hnosz
    have htry : tryRegions [freshRegion 0 S] s =
        TryOut.ok
          (((freshRegion 0 S).setBlockListEntry (freshRegion 0 S).nextFreeBlockId
            (freshRegion 0 S).freePtr s).rawGetBlock (freshRegion 0 S).nextFreeBlockId)
          [({ (freshRegion 0 S).setBlockListEntry (freshRegion 0 S).nextFreeBlockId
              (freshRegion 0 S).freePtr s with
              freePtr := (freshRegion 0 S).freePtr + s }).incrementFreeBlockId] := by
      unfold tryRegions
      rw [halloc]
    unfold Heap.AllocateFuel at hEq
    rw [htry] at hEq
    simp only [HeapAllocOut.ok.injEq] at hEq
    obtain ⟨hbres, _⟩ := hEq
    by_cases hs0 : s = 0
    · rw [hs0] at hbres
      simp only [Region.rawGetBlock, Region.setBlockListEntry,
        Function.update_same] at hbres
      simp at hbres
    · simp only [Region.rawGetBlock, Region.setBlockListEntry,
        Function.update_same] at hbres
      rw [if_neg (by
        intro hor
        rcases hor with h32 | hzz
        · exact absurd h32 (by show ¬ (32 : Int) = 0; norm_num)
        · exact hs0 hzz)] at hbres
      simp only [Option.some.injEq] at hbres
      rw [← hbres]
      show (freshRegion 0 S).nextFreeBlockId = 0
      show packBlockId 0 0 = 0
      exact packBlockId_zero 0 le_rfl (by norm_num)

set_option maxRecDepth 20000 in
/-- Witness for C9: three allocations of 100, 50 and 1 bytes on a fresh
1 MiB region succeed, and the dense-id property holds for them. -/
theorem c9_dense_ids_witness :
    ([100, 50, 1].length ≤ 65536 ∧ (∀ s ∈ [(100 : Int), 50, 1], 0 < s) ∧
      (allocAll (freshRegion 0 1048576) [100, 50, 1]).isSome) ∧
    DenseIdsSpec 1048576 [100, 50, 1] :=
  ⟨⟨by decide, by decide, by decide⟩,
    c9_dense_ids 1048576 [100, 50, 1] (by decide) (by decide) (by decide)⟩

/-- C10.  `Allocate(0)` returns `ok none` (Go `(nil, nil)`): neither a
block nor an error; yet it consumes a slot — writes a `(freePointer, 0)`
entry, increments the counter, leaves the free pointer unchanged — and
the consumed slot is invisible to `GetBlock` and `Blocks` (zero size
reads as the sentinel); the heap's region loop propagates the nil block
with no error. -/
theorem c10_zero_allocate (r : Region) (rest : List Region)
    (hA : 0 ≤ r.Available) (hsz : 0 ≤ r.size)
    (h0 : 0 ≤ r.nextId) (h1 : r.nextId ≤ 65535) :
    ZeroAllocSpec r rest := by
  have hnogt : ¬ (0 : Int) > r.Available := by omega
  have hnosz : ¬ (0 : Int) > r.size := by omega
  have halloc := allocate_success r 0 hnogt hnosz
  have hslot : BlockId.blockIdx r.nextFreeBlockId = r.nextId := by
    rw [nextFreeBlockId_blockIdx]
    omega
  have hbix : BlockId.blockIdx (packBlockId r.id r.nextId) = r.nextId := by
    rw [packBlockId_blockIdx]
    omega
  have hres1 : (r.Allocate 0).1 = AllocResult.ok none := by
    rw [halloc]
    refine congrArg AllocResult.ok ?_
    simp only [Region.rawGetBlock, Region.setBlockListEntry, Function.update_same]
    simp
  have hent : (r.Allocate 0).2.entries r.nextId = (r.freePtr, 0) := by
    rw [halloc]
    show Function.update r.entries (BlockId.blockIdx r.nextFreeBlockId)
      (r.freePtr, 0) r.nextId = (r.freePtr, 0)
    rw [hslot]
    exact Function.update_same _ _ _
  have hnid : (r.Allocate 0).2.nextId = r.nextId + 1 := by
    rw [halloc]
    show BlockId.blockIdx (packBlockId r.id r.nextId) + 1 = r.nextId + 1
    rw [packBlockId_blockIdx]
    omega
  have hfp : (r.Allocate 0).2.freePtr = r.freePtr := by
    rw [halloc]
    show r.freePtr + 0 = r.freePtr
    omega
  have hid2 : (r.Allocate 0).2.id = r.id := by
    rw [halloc]
    rfl
  have hent2 : (r.Allocate 0).2.entries =
      Function.update r.entries r.nextId (r.freePtr, 0) := by
    rw [halloc]
    show Function.update r.entries (BlockId.blockIdx r.nextFreeBlockId)
      (r.freePtr, 0) = _
    rw [hslot]
  have hget : (r.Allocate 0).2.GetBlock (packBlockId r.id r.nextId) = none := by
    simp only [Region.GetBlock]
    split_ifs with hg
    · rfl
    · simp only [Region.rawGetBlock, hbix, hent2, Function.update_same]
      simp
  have hblocks : ∀ b ∈ (r.Allocate 0).2.Blocks,
      b.id ≠ packBlockId r.id r.nextId := by
    intro b hb hbid
    simp only [Region.Blocks, List.mem_filterMap] at hb
    obtain ⟨j, hjmem, hjget⟩ := hb
    have hbid2 := getBlock_id _ _ _ hjget
    rw [hid2] at hjget hbid2
    have heq : packBlockId r.id 0 + (j : Int) = packBlockId r.id r.nextId := by
      rw [← hbid2, hbid]
    rw [heq] at hjget
    rw [hget] at hjget
    exact Option.noConfusion hjget
  have hpair : r.Allocate 0 = (AllocResult.ok none, (r.Allocate 0).2) := by
    rw [← hres1]
  have htryr : tryRegions (r :: rest) 0 =
      TryOut.ok none ((r.Allocate 0).2 :: rest) := by
    unfold tryRegions
    rw [hpair]
  refine ⟨hres1, hent, hnid, hfp, hget, hblocks, htryr, ?_⟩
  intro fuel
  unfold Heap.AllocateFuel
  rw [htryr]

set_option maxRecDepth 20000 in
/-- Witness for C10: the fresh 1 MiB region (counter 0, free pointer 32)
with no further regions. -/
theorem c10_zero_allocate_witness :
    ((0 : Int) ≤ (freshRegion 0 1048576).Available ∧
      (0 : Int) ≤ (freshRegion 0 1048576).size ∧
      (0 : Int) ≤ (freshRegion 0 1048576).nextId ∧
      (freshRegion 0 1048576).nextId ≤ 65535) ∧
    ZeroAllocSpec (freshRegion 0 1048576) [] :=
  ⟨⟨by decide, by decide, by decide, by decide⟩,
    c10_zero_allocate (freshRegion 0 1048576) [] (by decide) (by decide)
      (by decide) (by decide)⟩

end VHeap
